import Mathlib

/-!
Verification of the hall_monitor stale-image detection and repository
remediation tool.

Python strings are modelled as `List Char`; the truthiness tests that the
source applies to optional strings and lists are made explicit.  Every
operation is a computable function translated from the corresponding
source function.  `str.isdigit` is modelled as the ASCII decimal-digit
test (the tags handled by the tool are ASCII).
-/

namespace HallMonitor


/-- Character list of a string literal. -/
def str (s : String) : List Char := s.data

/-- Python truthiness of an `Optional[str]` value: `None` and `""` are falsy. -/
def truthyStr : Option (List Char) → Bool
  | none => false
  | some s => !s.isEmpty

/-- Python `<` on strings: lexicographic comparison by code point. -/
def strLt : List Char → List Char → Bool
  | [], [] => false
  | [], _ :: _ => true
  | _ :: _, [] => false
  | a :: as, b :: bs => if a < b then true else if b < a then false else strLt as bs

/-- Python `str.split` with a one-character separator and no maxsplit. -/
def pySplit (sep : Char) : List Char → List (List Char)
  | [] => [[]]
  | c :: cs =>
    if c = sep then [] :: pySplit sep cs
    else
      match pySplit sep cs with
      | [] => [[c]]
      | h :: t => (c :: h) :: t

/-- Model of `is_sc_tag_in_range` from `quay_image_checker.py` (lines 94-118):
checks the `sc-YYYYMMDD-sha` shape and the optional inclusive date range,
returning the match flag together with the extracted date string. -/
def is_sc_tag_in_range (tag_name : List Char) (start_date end_date : Option (List Char)) :
    Bool × Option (List Char) :=
  if !((str "sc-").isPrefixOf tag_name) then (false, none)
  else
    let parts := pySplit '-' tag_name
    if parts.length < 3 then (false, none)
    else
      let date_str := parts.getD 1 []
      if !(date_str.length == 8 && date_str.all (fun c => c.isDigit)) then (false, none)
      else if truthyStr start_date && strLt date_str (start_date.getD []) then
        (false, some date_str)
      else if truthyStr end_date && strLt (end_date.getD []) date_str then
        (false, some date_str)
      else (true, some date_str)

/-- The tag-membership test exactly as the specification words it: the name
starts with `sc-`, splitting on `-` yields at least 3 segments, the second
segment is 8 decimal digits, the date is `>=` the start date when one is
set and `<=` the end date when one is set. -/
def sc_tag_spec (tag_name : List Char) (start_date end_date : Option (List Char)) : Bool :=
  (str "sc-").isPrefixOf tag_name &&
  decide (3 ≤ (pySplit '-' tag_name).length) &&
  (let d := (pySplit '-' tag_name).getD 1 []
   (d.length == 8 && d.all (fun c => c.isDigit)) &&
   (match start_date with | none => true | some s => !strLt d s) &&
   (match end_date with | none => true | some e => !strLt e d))

/-! ### The pipeline-URL rewrite of `update_tekton_sc.py`

`TektonUpdater.url_pattern` is the regular expression
`(https://github\.com/[^/]+/[^/]+/raw/)v[\d.]+(/.*)` and
`update_yaml_file` applies `url_pattern.sub(r'\1main\2', original_url)`.
The matcher below is that exact pattern, component by component; because
`[^/]+` cannot match `/` and `[\d.]+` cannot match `/`, the greedy
semantics of each component reduce to maximal munch, and `.*` (which does
not match a newline) takes everything up to the next newline.  `re.sub`
replaces every non-overlapping match scanning from the left, which
`subScanFuel` performs with a fuel of the string length (each step of the
scan consumes at least one character, so that fuel is always enough). -/


/-- The literal `https://github.com/` opening of the pattern. -/
def litGithub : List Char := str "https://github.com/"

/-- Strip a literal from the front of the input, or fail. -/
def dropLit : List Char → List Char → Option (List Char)
  | [], s => some s
  | _ :: _, [] => none
  | c :: cs, d :: ds => if c = d then dropLit cs ds else none

/-- Match `[^/]+/`: a nonempty run of non-slash characters and the slash
after it; returns the run and the remainder after the slash. -/
def takeSeg (s : List Char) : Option (List Char × List Char) :=
  match s.dropWhile (fun c => !(c = '/')) with
  | [] => none
  | _ :: rest =>
    let seg := s.takeWhile (fun c => !(c = '/'))
    if seg = [] then none else some (seg, rest)

/-- Character class `[\d.]` of the version segment. -/
def isVChar (c : Char) : Bool := c.isDigit || c = '.'

/-- One attempted match of `url_pattern` at the start of the input: on
success returns the first capture group, the second capture group and the
remainder of the input after the match. -/
def matchAt (s : List Char) : Option (List Char × List Char × List Char) :=
  (dropLit litGithub s).bind fun s1 =>
  (takeSeg s1).bind fun p1 =>
  (takeSeg p1.2).bind fun p2 =>
  (dropLit (str "raw/") p2.2).bind fun s4 =>
  (dropLit ['v'] s4).bind fun s5 =>
  let ds := s5.takeWhile isVChar
  match s5.dropWhile isVChar with
  | [] => none
  | c :: s7 =>
    if ds = [] then none
    else if c = '/' then
      some (litGithub ++ p1.1 ++ '/' :: p2.1 ++ '/' :: str "raw/",
            '/' :: s7.takeWhile (fun x => !(x = '\n')),
            s7.dropWhile (fun x => !(x = '\n')))
    else none

/-- Left-to-right scan of `re.sub`: at each position try the pattern; on a
match emit group 1, the literal `main` and group 2 and continue after the
match, otherwise keep the character and move on. -/
def subScanFuel : Nat → List Char → List Char
  | 0, s => s
  | _ + 1, [] => []
  | fuel + 1, c :: cs =>
    match matchAt (c :: cs) with
    | some (g1, g2, rest) => g1 ++ str "main" ++ g2 ++ subScanFuel fuel rest
    | none => c :: subScanFuel fuel cs

/-- Model of `url_pattern.sub(r'\1main\2', s)`. -/
def pySub (s : List Char) : List Char := subScanFuel s.length s

/-- The canonical version-tagged URL, grouped for sequential matching. -/
def urlOf (owner repo ds rest : List Char) : List Char :=
  litGithub ++ (owner ++ '/' :: (repo ++ '/' :: (str "raw/" ++ 'v' :: (ds ++ '/' :: rest))))

/-- Capture group 1 of the pattern on the canonical URL. -/
def g1Of (owner repo : List Char) : List Char :=
  litGithub ++ owner ++ '/' :: repo ++ '/' :: str "raw/"

/-! ### Raw-text replacement and `update_yaml_file` -/


/-- Python `str.replace` (every non-overlapping occurrence, left to right),
with a fuel of the input length; each step consumes at least one character
whenever the needle is nonempty, so that fuel always suffices. -/
def pyReplaceFuel (old new : List Char) : Nat → List Char → List Char
  | 0, s => s
  | _ + 1, [] => []
  | f + 1, c :: cs =>
    if old.isPrefixOf (c :: cs) then
      new ++ pyReplaceFuel old new f ((c :: cs).drop old.length)
    else c :: pyReplaceFuel old new f cs

/-- Model of `content.replace(original_url, updated_url)`. -/
def pyReplace (s old new : List Char) : List Char := pyReplaceFuel old new s.length s

/-- A side effect of the updater observable from outside the process. -/
inductive GitCall
  | fetch (remote : List Char)
  | revParse (ref : List Char)
  | checkout (branch : List Char)
  | checkoutB (branch upstreamRef : List Char)
  | status
  | resetHard (ref : List Char)
  | pull (remote branch : List Char)
  | add (file : List Char)
  | commit (msg : List Char)
  | revParseHead
  | push (remote branch : List Char)
  deriving DecidableEq

/-- An observable effect: a git subprocess invocation or a file write. -/
inductive Event
  | git (c : GitCall)
  | writeFile (file : List Char) (content : List Char)
  deriving DecidableEq

/-- A Tekton SC manifest as `update_yaml_file` sees it: its raw text and the
result of looking up the pipeline key in `metadata` of the parsed YAML
(`none` when the metadata or the pipeline entry is absent, in which case
the function reports the file as not a target). -/
structure YamlFile where
  name : List Char
  content : List Char
  pipelineUrl : Option (List Char)
  deriving DecidableEq

/-- Model of `update_yaml_file` (lines 156-209 of update_tekton_sc.py): rewrite the
pipeline annotation URL with `url_pattern.sub`, report whether the file
counts as modified, and write the whole-text substring replacement back
unless in dry-run mode.  Returns the modified flag, the file text on disk
afterwards, and the write events performed. -/
def update_yaml_file (dry_run : Bool) (f : YamlFile) : Bool × List Char × List Event :=
  match f.pipelineUrl with
  | none => (false, f.content, [])
  | some original_url =>
    let updated_url := pySub original_url
    if original_url = updated_url then (false, f.content, [])
    else
      let updated_content := pyReplace f.content original_url updated_url
      if dry_run then (true, f.content, [])
      else (true, updated_content, [Event.writeFile f.name updated_content])

/-- A pipeline URL whose version segment has already been replaced by
`main`. -/
def urlMainOf (owner repo rest : List Char) : List Char :=
  litGithub ++ (owner ++ '/' :: (repo ++ '/' :: (str "raw/" ++ (str "main" ++ '/' :: rest))))

/-! ### The git-side model of `update_tekton_sc.py`

Each git subcommand is executed through `run_git_command`, which reports a
success flag and the captured output.  The behaviour of the external `git`
binary is abstracted as a `GitOracle` assigning one response to each of
the fixed commands the tool issues; the functions below record the exact
sequence of commands they run, which is what the control-flow claims are
about. -/


/-- Python `sub in s` for strings. -/
def hasSub (sub : List Char) : List Char → Bool
  | [] => sub.isEmpty
  | c :: cs => sub.isPrefixOf (c :: cs) || hasSub sub cs

/-- Responses of the `git` binary for each command the tool runs
(success flag and captured output). -/
structure GitOracle where
  fetch : Bool × List Char
  revParseBranch : Bool × List Char
  revParseUpstream : Bool × List Char
  checkout : Bool × List Char
  checkoutB : Bool × List Char
  status : Bool × List Char
  reset : Bool × List Char
  pull : Bool × List Char
  add : Bool × List Char
  commit : Bool × List Char
  revParseHead : Bool × List Char
  push : Bool × List Char

/-- Model of `TektonUpdater.checkout_and_pull` (lines 77-140): fetch (best effort),
verify the local and remote branches, check out (or create) the branch,
then either hard-reset on divergence or pull.  Returns the success flag
and the git commands run, in order.  The divergence test reproduces the
source's operator precedence: `(status_ok and 'have diverged' in out) or
('Your branch is ahead of' in out)`. -/
def checkout_and_pull (g : GitOracle) (branch : List Char) : Bool × List GitCall :=
  let pre := [GitCall.fetch (str "upstream"), GitCall.revParse branch,
              GitCall.revParse (str "upstream/" ++ branch)]
  if !g.revParseUpstream.1 then (false, pre)
  else if g.revParseBranch.1 then
    let t := pre ++ [GitCall.checkout branch]
    if !g.checkout.1 then (false, t)
    else
      let t := t ++ [GitCall.status]
      if (g.status.1 && hasSub (str "have diverged") g.status.2)
          || hasSub (str "Your branch is ahead of") g.status.2 then
        let t := t ++ [GitCall.resetHard (str "upstream/" ++ branch)]
        if !g.reset.1 then (false, t) else (true, t)
      else
        (true, t ++ [GitCall.pull (str "upstream") branch])
  else
    let t := pre ++ [GitCall.checkoutB branch (str "upstream/" ++ branch)]
    if !g.checkoutB.1 then (false, t) else (true, t)

/-- Model of `TektonUpdater.commit_and_push` (lines 211-270): in dry-run mode print
and return before any git command; otherwise add each file, commit,
resolve HEAD (failure only yields the sha `unknown`) and push.  Returns
the success flag, the git commands run and the commit-log entry sha. -/
def commit_and_push (dry_run : Bool) (g : GitOracle) (branch : List Char)
    (files_changed : List (List Char)) : Bool × List GitCall × Option (List Char) :=
  if files_changed.isEmpty then (false, [], none)
  else if dry_run then (true, [], none)
  else if !g.add.1 then (false, [GitCall.add (files_changed.headD [])], none)
  else
    let t := files_changed.map GitCall.add ++
      [GitCall.commit (str "Update Tekton SC pipeline URLs to use main branch")]
    if !g.commit.1 then (false, t, none)
    else
      let sha := if g.revParseHead.1 then g.revParseHead.2 else str "unknown"
      let t := t ++ [GitCall.revParseHead]
      if !g.push.1 then (false, t ++ [GitCall.push (str "upstream") branch], none)
      else (true, t ++ [GitCall.push (str "upstream") branch], some sha)

/-- One repository as the updater sees it: its directory name, the git
responses for it, and the `.tekton/*-sc*` manifests found in it. -/
structure RepoEnv where
  name : List Char
  git : GitOracle
  scFiles : List YamlFile

/-- Outcome of processing one repository: the commit-log entry, the
no-changes-log entry, and every observable side effect in order. -/
structure RepoResult where
  committed : Option (List Char × List Char)
  noChange : Option (List Char × List Char)
  events : List Event
  deriving DecidableEq

/-- The ASCII apostrophe, kept out of string literals. -/
def quoteChar : Char := Char.ofNat 39

/-- The no-changes reason recorded when `checkout_and_pull` fails:
`Branch <quote><branch><quote> not found on remote`. -/
def branchSkipReason (branch : List Char) : List Char :=
  str "Branch " ++ quoteChar :: (branch ++ quoteChar :: str " not found on remote")

/-- The no-changes reason when every SC file is already up to date:
`SC files already use <quote>main<quote> branch`. -/
def alreadyMainReason : List Char :=
  str "SC files already use " ++ quoteChar :: (str "main" ++ quoteChar :: str " branch")

/-- Model of `TektonUpdater.process_repository` (lines 272-306). -/
def process_repository (dry_run : Bool) (branch : List Char) (r : RepoEnv) : RepoResult :=
  let cp := checkout_and_pull r.git branch
  let gitEvents := cp.2.map Event.git
  if !cp.1 then
    ⟨none, some (r.name, branchSkipReason branch), gitEvents⟩
  else if r.scFiles.isEmpty then
    ⟨none, some (r.name, str "No -sc files found in .tekton directory"), gitEvents⟩
  else
    let updEvents := (r.scFiles.map (fun f => (update_yaml_file dry_run f).2.2)).flatten
    let files_changed := r.scFiles.filterMap
      (fun f => if (update_yaml_file dry_run f).1 then some f.name else none)
    if files_changed.isEmpty then
      ⟨none, some (r.name, alreadyMainReason), gitEvents ++ updEvents⟩
    else
      let cnp := commit_and_push dry_run r.git branch files_changed
      ⟨cnp.2.2.map (fun sha => (r.name, sha)), none,
       gitEvents ++ updEvents ++ cnp.2.1.map Event.git⟩

/-- Accumulated result of `TektonUpdater.run` over the resolved
repositories. -/
structure RunResult where
  commitLog : List (List Char × List Char)
  noChangesLog : List (List Char × List Char)
  events : List Event
  deriving DecidableEq

/-- Model of `TektonUpdater.run` (lines 308-361), after repository resolution:
process each repository in order, accumulating the commit log, the
no-changes log and the side effects. -/
def runUpdater (dry_run : Bool) (branch : List Char) : List RepoEnv → RunResult
  | [] => ⟨[], [], []⟩
  | r :: rs =>
    let pr := process_repository dry_run branch r
    let rest := runUpdater dry_run branch rs
    ⟨pr.committed.toList ++ rest.commitLog,
     pr.noChange.toList ++ rest.noChangesLog,
     pr.events ++ rest.events⟩

/-- Git subcommands that mutate state; `fetch`, `rev-parse` and `status`
are the read-only ones. -/
def mutatingGit : GitCall → Bool
  | GitCall.fetch _ => false
  | GitCall.revParse _ => false
  | GitCall.checkout _ => true
  | GitCall.checkoutB _ _ => true
  | GitCall.status => false
  | GitCall.resetHard _ => true
  | GitCall.pull _ _ => true
  | GitCall.add _ => true
  | GitCall.commit _ => true
  | GitCall.revParseHead => false
  | GitCall.push _ _ => true

/-- Events a dry run must not produce according to the claim's amended
form: file writes and the `add`/`commit`/`push` git subcommands. -/
def dryForbidden : Event → Bool
  | Event.writeFile _ _ => true
  | Event.git (GitCall.add _) => true
  | Event.git (GitCall.commit _) => true
  | Event.git (GitCall.push _ _) => true
  | Event.git (GitCall.fetch _) => false
  | Event.git (GitCall.revParse _) => false
  | Event.git (GitCall.checkout _) => false
  | Event.git (GitCall.checkoutB _ _) => false
  | Event.git GitCall.status => false
  | Event.git (GitCall.resetHard _) => false
  | Event.git (GitCall.pull _ _) => false
  | Event.git GitCall.revParseHead => false

/-- Any mutating observable effect (file write or mutating git call). -/
def isMutating : Event → Bool
  | Event.git c => mutatingGit c
  | Event.writeFile _ _ => true

/-- A git oracle whose commands all succeed and whose status output says
the local branch is ahead of upstream. -/
def gAhead : GitOracle :=
  ⟨(true, []), (true, str "abc1234"), (true, str "def5678"), (true, []), (true, []),
   (true, str "Your branch is ahead of upstream/security-compliance by 1 commit."),
   (true, []), (true, []), (true, []), (true, []), (true, str "sha"), (true, [])⟩

/-- A git oracle where every command succeeds and the working tree is
clean (no divergence). -/
def gClean : GitOracle :=
  ⟨(true, []), (true, str "abc1234"), (true, str "def5678"), (true, []), (true, []),
   (true, str "nothing to commit, working tree clean"),
   (true, []), (true, []), (true, []), (true, []), (true, str "deadbee"), (true, [])⟩

/-- A manifest whose pipeline URL still carries a version tag. -/
def fileNeedsUpdate : YamlFile :=
  ⟨str "pipeline-sc.yaml",
   str "pipeline: https://github.com/org/repo/raw/v1.2.3/p.yaml",
   some (str "https://github.com/org/repo/raw/v1.2.3/p.yaml")⟩

/-- One repository holding that manifest. -/
def repoDry : RepoEnv := ⟨str "svc-repo", gClean, [fileNeedsUpdate]⟩

/-! ### The registry tag fetch and the stale-service search of
`quay_image_checker.py` -/


/-- One page of the tag-listing endpoint as `get_quay_tags` returns it:
`none` is a failed request (HTTP error, 404 included); otherwise the JSON
body with its optional `tags` array and `has_additional` continuation
flag. -/
structure PageResp where
  tagsField : Option (List (List Char))
  hasAdditional : Bool

/-- The loop of `get_all_tags` (lines 64-86): request successive pages
until a request fails, the body lacks a `tags` array, a page is empty, or
`has_additional` is false, accumulating the tag names.  The unbounded
`while True` runs on explicit fuel; `none` means the fuel ran out before
the loop ended (never the case for terminating oracles given enough
fuel). -/
def get_all_tags_aux (fetch : Nat → Option PageResp) :
    Nat → Nat → List (List Char) → Option (List (List Char))
  | 0, _, _ => none
  | f + 1, page, acc =>
    match fetch page with
    | none => some acc
    | some resp =>
      match resp.tagsField with
      | none => some acc
      | some tags =>
        if tags.isEmpty then some acc
        else if !resp.hasAdditional then some (acc ++ tags)
        else get_all_tags_aux fetch f (page + 1) (acc ++ tags)

/-- Model of `get_all_tags(namespace, repository)` for a given page oracle. -/
def get_all_tags (fetch : Nat → Option PageResp) (fuel : Nat) :
    Option (List (List Char)) :=
  get_all_tags_aux fetch fuel 1 []

/-- Model of `parse_quay_repo` (lines 28-40): strip a leading `quay.io/`, split on
the first slash; fewer than two parts raise a ValueError whose message the
caller records. -/
def parse_quay_repo (repo_url : List Char) :
    Except (List Char) (List Char × List Char) :=
  let u := if (str "quay.io/").isPrefixOf repo_url then repo_url.drop 8 else repo_url
  match u.dropWhile (fun c => !(c = '/')) with
  | [] => Except.error
      (str "Invalid repo format: " ++ u ++ str ". Expected: namespace/repository")
  | _ :: after => Except.ok (u.takeWhile (fun c => !(c = '/')), after)

/-- The three report buckets of `search_by_date_range` plus the
`found_any` flag and the number of registry fetches made. -/
structure SearchResult where
  updated : List (List Char × List (List Char × Option (List Char)))
  notUpdated : List (List Char)
  errored : List (List Char × List Char)
  foundAny : Bool
  fetches : Nat
  deriving DecidableEq

/-- Python `if services and service not in services: continue`: a service
is processed when the filter is absent, empty (falsy) or lists it. -/
def processedSvc (services : Option (List (List Char))) (svc : List Char) : Bool :=
  match services with
  | none => true
  | some l => if l.isEmpty then true else decide (svc ∈ l)

/-- The matches collected for one service: every tag passing
`is_sc_tag_in_range`, paired with its extracted date, in listing order. -/
def collectMatches (sd ed : Option (List Char)) (tags : List (List Char)) :
    List (List Char × Option (List Char)) :=
  tags.filterMap (fun t =>
    if (is_sc_tag_in_range t sd ed).1 then some (t, (is_sc_tag_in_range t sd ed).2)
    else none)

/-- Model of `search_by_date_range` (lines 121-215): for each service in mapping
order (restricted by the optional filter), parse the registry reference
(failure is recorded with no network call), fetch the tags (the oracle
stands for `get_all_tags`), and classify the service into exactly one of
the three buckets. -/
def search_by_date_range (repos : List (List Char × List Char))
    (sd ed : Option (List Char)) (services : Option (List (List Char)))
    (oracle : List Char → List Char → List (List Char)) : SearchResult :=
  match repos with
  | [] => ⟨[], [], [], false, 0⟩
  | (svc, repo_url) :: rest =>
    let r := search_by_date_range rest sd ed services oracle
    if !(processedSvc services svc) then r
    else
      match parse_quay_repo repo_url with
      | Except.error e =>
        ⟨r.updated, r.notUpdated, (svc, str "Invalid repo format: " ++ e) :: r.errored,
         r.foundAny, r.fetches⟩
      | Except.ok (ns, rep) =>
        let tags := oracle ns rep
        if tags.isEmpty then
          ⟨r.updated, r.notUpdated,
           (svc, str "No tags found or error accessing repository") :: r.errored,
           r.foundAny, r.fetches + 1⟩
        else
          let matchList := collectMatches sd ed tags
          if matchList.isEmpty then
            ⟨r.updated, svc :: r.notUpdated, r.errored, r.foundAny, r.fetches + 1⟩
          else
            ⟨(svc, matchList) :: r.updated, r.notUpdated, r.errored, true, r.fetches + 1⟩

/-- A page oracle whose first page succeeds with one tag and promises
more pages, and whose second page request fails. -/
def fetchPartial : Nat → Option PageResp := fun p =>
  if p = 1 then some ⟨some [str "sc-20240101-abcdef1"], true⟩ else none

/-! ### The coordinator entry point (`coordinator.py`, `main`)

`load_config` and `load_repo_config` call `sys.exit(1)` on a missing or
unreadable file, before any network request; an empty repos mapping also
exits 1.  The stale check then queries the registry (network).  Only
afterwards, when stale services exist and `--check-only` is not set, is
`git_repos_dir` read from the configuration — its absence exits 1 at that
point.  Every other path falls off the end of `main` with exit status 0.
The date range comes from the wall clock and is supplied by the
environment; the repository-update step is abstracted as one VCS event
(its internals are modelled by `runUpdater`). -/


/-- The configuration document, after YAML parsing. -/
structure CoordConfig where
  dry_run : Bool
  services : Option (List (List Char))
  quick_search_days : Nat
  git_repos_dir : Option (List Char)
  branch : List Char

/-- Outward activity of a coordinator run. -/
inductive CoordEvent
  | net
  | vcs
  deriving DecidableEq

/-- Everything outside the process that `main` consults. -/
structure CoordEnv where
  config : Option CoordConfig
  repos : Option (List (List Char × List Char))
  oracle : List Char → List Char → List (List Char)
  startDateStr : List Char
  endDateStr : List Char
  argsCheckOnly : Bool
  argsDryRun : Bool
  argsServices : Option (List (List Char))

/-- Python truthiness of an optional service list. -/
def truthyList : Option (List (List Char)) → Bool
  | none => false
  | some l => !l.isEmpty

/-- Model of `args.services or config.get(services) or None`. -/
def pyOrOpt (a b : Option (List (List Char))) : Option (List (List Char)) :=
  if truthyList a then a else if truthyList b then b else none

/-- Model of `main` of coordinator.py (lines 125-222): returns the process exit
status and the trace of network (one per registry fetch) and VCS
activity, in order. -/
def coordinator_main (env : CoordEnv) : Nat × List CoordEvent :=
  match env.config with
  | none => (1, [])
  | some cfg =>
    match env.repos with
    | none => (1, [])
    | some repos =>
      if repos.isEmpty then (1, [])
      else
        let services := pyOrOpt env.argsServices cfg.services
        let sr := search_by_date_range repos (some env.startDateStr)
          (some env.endDateStr) services env.oracle
        let netEvents := List.replicate sr.fetches CoordEvent.net
        if env.argsCheckOnly then (0, netEvents)
        else if !sr.notUpdated.isEmpty then
          match cfg.git_repos_dir with
          | none => (1, netEvents)
          | some _ => (0, netEvents ++ [CoordEvent.vcs])
        else (0, netEvents)

/-- A run whose configuration lacks `git_repos_dir` while one service is
stale: one tag outside the date range. -/
def envMissingDir : CoordEnv :=
  ⟨some ⟨false, none, 14, none, str "security-compliance"⟩,
   some [(str "svc", str "quay.io/ns/repo")],
   (fun _ _ => [str "sc-19990101-abcdef1"]),
   str "20240101", str "20240201", false, false, none⟩

/-- A complete, well-formed environment: `git_repos_dir` configured. -/
def envComplete : CoordEnv :=
  ⟨some ⟨false, none, 14, some (str "/repos"), str "security-compliance"⟩,
   some [(str "svc", str "quay.io/ns/repo")],
   (fun _ _ => [str "sc-19990101-abcdef1"]),
   str "20240101", str "20240201", false, false, none⟩

/-- Claim C1: the tag classifier marks a tag as matching exactly when the
`sc-` shape checks and the optional inclusive date-range bounds hold, any
failing tag is merely non-matching, and the concrete tag
`sc-20240101-abc123` with range `20231201`-`20240201` matches with
extracted date `20240101`.  Date bounds are quantified over genuinely
optional dates (`none`, or a set nonempty date string). -/
theorem c1_tag_classifier (tag : List Char) (sd ed : Option (List Char))
    (hs : sd ≠ some []) (he : ed ≠ some []) :
    (is_sc_tag_in_range tag sd ed).1 = sc_tag_spec tag sd ed ∧
    is_sc_tag_in_range (str "sc-20240101-abc123")
      (some (str "20231201")) (some (str "20240201")) = (true, some (str "20240101")) := by
  constructor
  · unfold is_sc_tag_in_range sc_tag_spec
    cases hpre : (str "sc-").isPrefixOf tag
    · simp [hpre]
    · simp only [hpre, Bool.not_true, Bool.false_eq_true, if_false, Bool.true_and]
      by_cases hlen : (pySplit '-' tag).length < 3
      · simp [hlen, Nat.not_le_of_lt hlen]
      · simp only [hlen, if_false]
        have hlen' : decide (3 ≤ (pySplit '-' tag).length) = true := by
          simp [Nat.le_of_not_lt hlen]
        simp only [hlen', Bool.true_and]
        set d := (pySplit '-' tag).getD 1 [] with hd
        by_cases hshape : (d.length == 8 && d.all (fun c => c.isDigit)) = true
        · simp only [hshape, Bool.not_true, Bool.false_eq_true, if_false, Bool.true_and]
          cases sd with
          | none =>
            cases ed with
            | none => simp [truthyStr]
            | some e =>
              have he' : e ≠ [] := fun h => he (by simp [h])
              have hie : e.isEmpty = false := by
                cases e
                · exact absurd rfl he'
                · rfl
              simp only [truthyStr, Bool.false_and, Bool.false_eq_true, if_false,
                hie, Bool.not_false, Bool.true_and, Option.getD_some]
              cases hlt : strLt e d <;> simp [hlt]
          | some s =>
            have hs' : s ≠ [] := fun h => hs (by simp [h])
            have his : s.isEmpty = false := by
              cases s
              · exact absurd rfl hs'
              · rfl
            simp only [truthyStr, his, Bool.not_false, Bool.true_and, Option.getD_some]
            cases hlt : strLt d s
            · simp only [Bool.false_eq_true, if_false, Bool.not_false, Bool.true_and]
              cases ed with
              | none => simp [truthyStr]
              | some e =>
                have he' : e ≠ [] := fun h => he (by simp [h])
                have hie : e.isEmpty = false := by
                  cases e
                  · exact absurd rfl he'
                  · rfl
                simp only [truthyStr, hie, Bool.not_false, Bool.true_and, Option.getD_some]
                cases hlt2 : strLt e d <;> simp [hlt2]
            · simp [hlt]
        · simp only [Bool.not_eq_true'] at hshape
          simp [hshape]
  · rfl

/-- Witness for C1 at the spec's concrete inputs. -/
theorem c1_tag_classifier_witness :
    (some (str "20231201") ≠ some ([] : List Char)) ∧
    (some (str "20240201") ≠ some ([] : List Char)) ∧
    ((is_sc_tag_in_range (str "sc-20240101-abc123")
        (some (str "20231201")) (some (str "20240201"))).1
       = sc_tag_spec (str "sc-20240101-abc123")
        (some (str "20231201")) (some (str "20240201")) ∧
     is_sc_tag_in_range (str "sc-20240101-abc123")
        (some (str "20231201")) (some (str "20240201"))
       = (true, some (str "20240101"))) :=
  ⟨by decide, by decide,
   c1_tag_classifier (str "sc-20240101-abc123")
     (some (str "20231201")) (some (str "20240201")) (by decide) (by decide)⟩

theorem dropLit_append (l s : List Char) : dropLit l (l ++ s) = some s := by
  induction l with
  | nil => rfl
  | cons c cs ih => simp [dropLit, ih]

theorem takeWhile_middle {p : Char → Bool} {a : List Char} (c : Char) (r : List Char)
    (ha : ∀ x ∈ a, p x = true) (hc : p c = false) :
    (a ++ c :: r).takeWhile p = a := by
  induction a with
  | nil => simp [List.takeWhile, hc]
  | cons x xs ih =>
    have hx : p x = true := ha x (by simp)
    simp only [List.cons_append, List.takeWhile_cons, hx, if_true]
    rw [ih (fun y hy => ha y (by simp [hy]))]

theorem dropWhile_middle {p : Char → Bool} {a : List Char} (c : Char) (r : List Char)
    (ha : ∀ x ∈ a, p x = true) (hc : p c = false) :
    (a ++ c :: r).dropWhile p = c :: r := by
  induction a with
  | nil => simp [List.dropWhile, hc]
  | cons x xs ih =>
    have hx : p x = true := ha x (by simp)
    simp only [List.cons_append, List.dropWhile_cons, hx, if_true]
    exact ih (fun y hy => ha y (by simp [hy]))

theorem takeWhile_all {p : Char → Bool} {l : List Char} (h : ∀ x ∈ l, p x = true) :
    l.takeWhile p = l := by
  induction l with
  | nil => rfl
  | cons x xs ih =>
    simp only [List.takeWhile_cons, h x (by simp), if_true]
    rw [ih (fun y hy => h y (by simp [hy]))]

theorem dropWhile_all {p : Char → Bool} {l : List Char} (h : ∀ x ∈ l, p x = true) :
    l.dropWhile p = [] := by
  induction l with
  | nil => rfl
  | cons x xs ih =>
    simp only [List.dropWhile_cons, h x (by simp), if_true]
    exact ih (fun y hy => h y (by simp [hy]))

theorem takeSeg_canonical (a r : List Char) (hne : a ≠ []) (hs : '/' ∉ a) :
    takeSeg (a ++ '/' :: r) = some (a, r) := by
  have ha : ∀ x ∈ a, (!(x = '/')) = true := by
    intro x hx
    simp only [Bool.not_eq_true']
    exact decide_eq_false (fun h => hs (h ▸ hx))
  unfold takeSeg
  rw [dropWhile_middle '/' r ha (by simp), takeWhile_middle '/' r ha (by simp)]
  simp [hne]

theorem subScanFuel_nil (f : Nat) : subScanFuel f [] = [] := by
  cases f <;> rfl

theorem matchAt_canonical (owner repo ds rest : List Char)
    (ho : owner ≠ []) (ho' : '/' ∉ owner) (hr : repo ≠ []) (hr' : '/' ∉ repo)
    (hd : ds ≠ []) (hd' : ∀ c ∈ ds, isVChar c = true) (hn : '\n' ∉ rest) :
    matchAt (urlOf owner repo ds rest)
      = some (g1Of owner repo, '/' :: rest, []) := by
  have hrest : ∀ x ∈ rest, (!(x = '\n')) = true := by
    intro x hx
    simp only [Bool.not_eq_true']
    exact decide_eq_false (fun h => hn (h ▸ hx))
  have h1 := takeSeg_canonical owner
    (repo ++ '/' :: (str "raw/" ++ 'v' :: (ds ++ '/' :: rest))) ho ho'
  have h2 := takeSeg_canonical repo
    (str "raw/" ++ 'v' :: (ds ++ '/' :: rest)) hr hr'
  unfold urlOf g1Of matchAt
  simp only [dropLit_append, h1, h2, Option.some_bind]
  rw [show ('v' :: (ds ++ '/' :: rest)) = ['v'] ++ (ds ++ '/' :: rest) from rfl]
  simp only [dropLit_append, Option.some_bind]
  rw [dropWhile_middle '/' rest hd' (by decide), takeWhile_middle '/' rest hd' (by decide)]
  simp [hd, takeWhile_all hrest, dropWhile_all hrest]

theorem pySub_head_match (s g1 g2 : List Char)
    (h : matchAt s = some (g1, g2, [])) (hs : s ≠ []) :
    pySub s = g1 ++ str "main" ++ g2 := by
  unfold pySub
  cases s with
  | nil => exact absurd rfl hs
  | cons c cs =>
    show subScanFuel (cs.length + 1) (c :: cs) = _
    rw [subScanFuel, h]
    simp [subScanFuel_nil]

/-- Claim C2, counterexample: the substitution leaves a version-tagged URL
on a host other than `github.com` untouched, because `url_pattern` fixes
the host to the literal `github.com`. -/
theorem c2_host_counterexample :
    pySub (str "https://gitlab.com/org/repo/raw/v1.2.3/path/to/file.yaml")
        = str "https://gitlab.com/org/repo/raw/v1.2.3/path/to/file.yaml" ∧
    pySub (str "https://gitlab.com/org/repo/raw/v1.2.3/path/to/file.yaml")
        ≠ str "https://gitlab.com/org/repo/raw/main/path/to/file.yaml" := by
  constructor
  · rfl
  · decide

/-- Claim C2 (amended to the host the pattern actually fixes): for every
URL of the shape `https://github.com/<owner>/<repo>/raw/<versionTag>/<rest>`
with `<versionTag>` a `v`-prefixed dotted-numeric tag, the substitution
replaces the version tag with the literal `main`, preserving all the text
before and after the version segment. -/
theorem c2_url_rewrite (owner repo ds rest : List Char)
    (ho : owner ≠ []) (ho' : '/' ∉ owner) (hr : repo ≠ []) (hr' : '/' ∉ repo)
    (hd : ds ≠ []) (hd' : ∀ c ∈ ds, isVChar c = true) (hn : '\n' ∉ rest) :
    pySub (urlOf owner repo ds rest)
      = litGithub ++ (owner ++ '/' :: (repo ++ '/' :: (str "raw/" ++
          (str "main" ++ '/' :: rest)))) := by
  rw [pySub_head_match _ _ _
    (matchAt_canonical owner repo ds rest ho ho' hr hr' hd hd' hn)
    (by simp [urlOf, litGithub, str])]
  simp [g1Of, List.append_assoc]

/-- Witness for C2: the spec's round-trip example
`https://github.com/org/repo/raw/v1.2.3/path/to/file.yaml`. -/
theorem c2_url_rewrite_witness :
    ((str "org" : List Char) ≠ [] ∧ '/' ∉ (str "org" : List Char) ∧
     (str "repo" : List Char) ≠ [] ∧ '/' ∉ (str "repo" : List Char) ∧
     (str "1.2.3" : List Char) ≠ [] ∧ (∀ c ∈ (str "1.2.3" : List Char), isVChar c = true) ∧
     '\n' ∉ (str "path/to/file.yaml" : List Char)) ∧
    urlOf (str "org") (str "repo") (str "1.2.3") (str "path/to/file.yaml")
      = str "https://github.com/org/repo/raw/v1.2.3/path/to/file.yaml" ∧
    pySub (urlOf (str "org") (str "repo") (str "1.2.3") (str "path/to/file.yaml"))
      = litGithub ++ (str "org" ++ '/' :: (str "repo" ++ '/' :: (str "raw/" ++
          (str "main" ++ '/' :: str "path/to/file.yaml")))) ∧
    litGithub ++ (str "org" ++ '/' :: (str "repo" ++ '/' :: (str "raw/" ++
          (str "main" ++ '/' :: str "path/to/file.yaml"))))
      = str "https://github.com/org/repo/raw/main/path/to/file.yaml" :=
  ⟨⟨by decide, by decide, by decide, by decide, by decide, by decide, by decide⟩,
   by decide,
   c2_url_rewrite (str "org") (str "repo") (str "1.2.3") (str "path/to/file.yaml")
     (by decide) (by decide) (by decide) (by decide) (by decide) (by decide) (by decide),
   by decide⟩

theorem dropLit_eq_append {l s t : List Char} (h : dropLit l s = some t) :
    s = l ++ t := by
  induction l generalizing s with
  | nil => simpa [dropLit] using h
  | cons c cs ih =>
    cases s with
    | nil => simp [dropLit] at h
    | cons d ds =>
      by_cases hcd : c = d
      · simp only [dropLit, hcd, if_pos rfl] at h
        simp [← hcd, ih h]
      · simp [dropLit, hcd] at h

theorem matchAt_litGithub {s : List Char} {r : List Char × List Char × List Char}
    (h : matchAt s = some r) : ∃ t, s = litGithub ++ t := by
  unfold matchAt at h
  cases hdl : dropLit litGithub s with
  | none => rw [hdl] at h; simp at h
  | some s1 => exact ⟨s1, dropLit_eq_append hdl⟩

theorem litGithub_colon {i : Nat} (h : litGithub[i]? = some ':') : i = 5 := by
  have hlen : i < 19 := by
    by_contra hge
    rw [List.getElem?_eq_none (by simpa [litGithub, str] using Nat.le_of_not_lt hge)] at h
    cases h
  interval_cases i <;> revert h <;> decide

theorem append_colon {t : List Char} (ht : ':' ∉ t) {i : Nat}
    (h : (litGithub ++ t)[i]? = some ':') : i = 5 := by
  rcases Nat.lt_or_ge i 19 with hi | hi
  · rw [List.getElem?_append_left (by simpa [litGithub, str] using hi)] at h
    exact litGithub_colon h
  · rw [List.getElem?_append_right (by simpa [litGithub, str] using hi)] at h
    exact absurd (List.getElem?_mem h) ht

theorem subScanFuel_id (f : Nat) (s : List Char)
    (h : ∀ p, matchAt (s.drop p) = none) : subScanFuel f s = s := by
  induction f generalizing s with
  | zero => rfl
  | succ f ih =>
    cases s with
    | nil => rfl
    | cons c cs =>
      have h0 := h 0
      simp only [List.drop_zero] at h0
      simp only [subScanFuel, h0]
      rw [ih cs (fun p => by simpa using h (p + 1))]

/-- On a string of the form `https://github.com/<colon-free text>`, the
pattern can only ever match at position 0: every match starts with the
literal whose sixth character is the sole colon of the string. -/
theorem pySub_id_of_headNone {t : List Char} (ht : ':' ∉ t)
    (h0 : matchAt (litGithub ++ t) = none) :
    pySub (litGithub ++ t) = litGithub ++ t := by
  apply subScanFuel_id
  intro p
  cases p with
  | zero => simpa using h0
  | succ p =>
    cases hm : matchAt ((litGithub ++ t).drop (p + 1)) with
    | none => rfl
    | some r =>
      obtain ⟨u, hu⟩ := matchAt_litGithub hm
      have h5 : ((litGithub ++ t).drop (p + 1))[5]? = some ':' := by
        rw [hu, List.getElem?_append_left (by simp [litGithub, str])]
        decide
      rw [List.getElem?_drop] at h5
      have := append_colon ht h5
      omega

theorem matchAt_urlMain_none (owner repo rest : List Char)
    (ho : owner ≠ []) (ho' : '/' ∉ owner) (hr : repo ≠ []) (hr' : '/' ∉ repo) :
    matchAt (urlMainOf owner repo rest) = none := by
  have h1 := takeSeg_canonical owner
    (repo ++ '/' :: (str "raw/" ++ (str "main" ++ '/' :: rest))) ho ho'
  have h2 := takeSeg_canonical repo
    (str "raw/" ++ (str "main" ++ '/' :: rest)) hr hr'
  unfold urlMainOf matchAt
  simp only [dropLit_append, h1, h2, Option.some_bind]
  rw [show (str "main" ++ '/' :: rest) = 'm' :: (str "ain" ++ '/' :: rest) from rfl]
  simp [dropLit]

theorem pySub_urlMain (owner repo rest : List Char)
    (ho : owner ≠ []) (ho' : '/' ∉ owner) (hoc : ':' ∉ owner)
    (hr : repo ≠ []) (hr' : '/' ∉ repo) (hrc : ':' ∉ repo)
    (hrest : ':' ∉ rest) :
    pySub (urlMainOf owner repo rest) = urlMainOf owner repo rest := by
  have ht : ':' ∉ (owner ++ '/' :: (repo ++ '/' :: (str "raw/" ++ (str "main" ++ '/' :: rest)))) := by
    intro h
    simp only [List.mem_append, List.mem_cons] at h
    rcases h with h | h | h
    · exact hoc h
    · exact absurd h (by decide)
    · rcases h with h | h | h
      · exact hrc h
      · exact absurd h (by decide)
      · rcases h with h | h
        · exact absurd h (by decide)
        · rcases h with h | h
          · exact absurd h (by decide)
          · rcases h with h | h
            · exact absurd h (by decide)
            · exact hrest h
  exact pySub_id_of_headNone ht (matchAt_urlMain_none owner repo rest ho ho' hr hr')

/-- Claim C7: applying the patcher to a file whose pipeline URL already
names `main` in place of a version tag is a no-op: the substitution
returns an identical string, `update_yaml_file` reports the file as not
modified, no write happens and the on-disk text is unchanged (in either
dry-run or real mode). -/
theorem c7_patcher_idempotent (owner repo rest fname content : List Char) (dry : Bool)
    (ho : owner ≠ []) (ho' : '/' ∉ owner) (hoc : ':' ∉ owner)
    (hr : repo ≠ []) (hr' : '/' ∉ repo) (hrc : ':' ∉ repo)
    (hrest : ':' ∉ rest) :
    pySub (urlMainOf owner repo rest) = urlMainOf owner repo rest ∧
    update_yaml_file dry ⟨fname, content, some (urlMainOf owner repo rest)⟩
      = (false, content, []) := by
  have hid := pySub_urlMain owner repo rest ho ho' hoc hr hr' hrc hrest
  refine ⟨hid, ?_⟩
  unfold update_yaml_file
  simp [hid]

/-- Witness for C7 on the concrete URL
`https://github.com/org/repo/raw/main/path/to/file.yaml`. -/
theorem c7_patcher_idempotent_witness :
    ((str "org" : List Char) ≠ [] ∧ '/' ∉ (str "org" : List Char) ∧
     ':' ∉ (str "org" : List Char) ∧
     (str "repo" : List Char) ≠ [] ∧ '/' ∉ (str "repo" : List Char) ∧
     ':' ∉ (str "repo" : List Char) ∧ ':' ∉ (str "path/to/file.yaml" : List Char)) ∧
    (pySub (urlMainOf (str "org") (str "repo") (str "path/to/file.yaml"))
       = urlMainOf (str "org") (str "repo") (str "path/to/file.yaml") ∧
     update_yaml_file false
        ⟨str "a-sc.yaml", str "spec: x",
         some (urlMainOf (str "org") (str "repo") (str "path/to/file.yaml"))⟩
       = (false, str "spec: x", [])) :=
  ⟨⟨by decide, by decide, by decide, by decide, by decide, by decide, by decide⟩,
   c7_patcher_idempotent (str "org") (str "repo") (str "path/to/file.yaml")
     (str "a-sc.yaml") (str "spec: x") false
     (by decide) (by decide) (by decide) (by decide) (by decide) (by decide) (by decide)⟩

theorem pyReplaceFuel_nil (old new : List Char) (f : Nat) :
    pyReplaceFuel old new f [] = [] := by
  cases f <;> rfl

theorem isPrefixOf_head {h0 c : Char} {old' cs : List Char}
    (h : (h0 :: old').isPrefixOf (c :: cs) = true) : h0 = c := by
  simp only [List.isPrefixOf, Bool.and_eq_true, beq_iff_eq] at h
  exact h.1

theorem pyReplaceFuel_skip (old new : List Char) (h0 : Char) (old' t : List Char)
    (ho : old = h0 :: old') (f : Nat) :
    ∀ a : List Char, h0 ∉ a →
      pyReplaceFuel old new (a.length + f) (a ++ t) = a ++ pyReplaceFuel old new f t := by
  intro a
  induction a with
  | nil => intro _; simp
  | cons x xs ih =>
    intro ha
    have hx0 : h0 ≠ x := fun h => ha (by simp [h])
    have hnp : ¬ old.isPrefixOf (x :: (xs ++ t)) = true := by
      intro hp
      rw [ho] at hp
      exact hx0 (isPrefixOf_head hp)
    have hlen : (x :: xs).length + f = (xs.length + f) + 1 := by
      simp only [List.length_cons]
      omega
    rw [List.cons_append, hlen, pyReplaceFuel, if_neg hnp,
      ih (fun h => ha (by simp [h]))]
    rfl

theorem pyReplaceFuel_hit (old new t : List Char) (h0 : Char) (old' : List Char)
    (ho : old = h0 :: old') (f : Nat) :
    pyReplaceFuel old new (f + 1) (old ++ t) = new ++ pyReplaceFuel old new f t := by
  subst ho
  rw [List.cons_append, pyReplaceFuel]
  have hp : (h0 :: old').isPrefixOf (h0 :: (old' ++ t)) = true := by
    rw [List.isPrefixOf_iff_prefix, ← List.cons_append]
    exact List.prefix_append _ _
  rw [if_pos hp]
  have hd : (h0 :: (old' ++ t)).drop (h0 :: old').length = t := by
    rw [List.length_cons, List.drop_succ_cons, List.drop_left]
  rw [hd]

/-- Python `str.replace` rewrites both of two separated occurrences of the needle
when the needle's first character occurs nowhere else. -/
theorem pyReplace_two (old new a b c : List Char) (h0 : Char) (old' : List Char)
    (ho : old = h0 :: old') (ha : h0 ∉ a) (hb : h0 ∉ b) (hc : h0 ∉ c) :
    pyReplace (a ++ (old ++ (b ++ (old ++ c)))) old new
      = a ++ (new ++ (b ++ (new ++ c))) := by
  unfold pyReplace
  have l1 : (a ++ (old ++ (b ++ (old ++ c)))).length
      = a.length + (old ++ (b ++ (old ++ c))).length := by
    rw [List.length_append]
  rw [l1, pyReplaceFuel_skip old new h0 old' _ ho _ a ha]
  congr 1
  have l2 : (old ++ (b ++ (old ++ c))).length
      = (old'.length + (b ++ (old ++ c)).length) + 1 := by
    rw [List.length_append, ho]
    simp only [List.length_cons]
    omega
  rw [l2, pyReplaceFuel_hit old new _ h0 old' ho]
  congr 1
  have l3 : old'.length + (b ++ (old ++ c)).length
      = b.length + (old'.length + (old ++ c).length) := by
    rw [List.length_append]
    omega
  rw [l3, pyReplaceFuel_skip old new h0 old' _ ho _ b hb]
  congr 1
  have l4 : old'.length + (old ++ c).length
      = (old'.length + old'.length + c.length) + 1 := by
    rw [List.length_append, ho]
    simp only [List.length_cons]
    omega
  rw [l4, pyReplaceFuel_hit old new _ h0 old' ho]
  congr 1
  have l5 : old'.length + old'.length + c.length
      = c.length + (old'.length + old'.length) := by omega
  have hskip := pyReplaceFuel_skip old new h0 old' [] ho (old'.length + old'.length) c hc
  rw [List.append_nil] at hskip
  rw [l5, hskip, pyReplaceFuel_nil, List.append_nil]

theorem pySub_urlOf (owner repo ds rest : List Char)
    (ho : owner ≠ []) (ho' : '/' ∉ owner) (hr : repo ≠ []) (hr' : '/' ∉ repo)
    (hd : ds ≠ []) (hd' : ∀ c ∈ ds, isVChar c = true) (hn : '\n' ∉ rest) :
    pySub (urlOf owner repo ds rest) = urlMainOf owner repo rest := by
  rw [pySub_head_match _ _ _
    (matchAt_canonical owner repo ds rest ho ho' hr hr' hd hd' hn)
    (by simp [urlOf, litGithub, str])]
  simp [g1Of, urlMainOf, List.append_assoc]

theorem urlOf_ne_urlMain (owner repo ds rest : List Char) :
    urlOf owner repo ds rest ≠ urlMainOf owner repo rest := by
  intro h
  unfold urlOf urlMainOf at h
  simp only [List.append_right_inj, List.cons.injEq, true_and] at h
  rw [show (str "main" ++ '/' :: rest) = 'm' :: (str "ain" ++ '/' :: rest) from rfl] at h
  simp only [List.cons.injEq] at h
  exact absurd h.1 (by decide)

/-- Claim C10: when writing a patched manifest, the raw-text substitution
rewrites every occurrence of the old URL in the original file text, not
only the annotation value: on a file containing the URL twice (separated
by text not containing the URL's first character `h`), both occurrences
appear rewritten in the written content. -/
theorem c10_replace_every_occurrence
    (aseg bseg cseg fname owner repo ds rest : List Char)
    (ho : owner ≠ []) (ho' : '/' ∉ owner) (hr : repo ≠ []) (hr' : '/' ∉ repo)
    (hd : ds ≠ []) (hd' : ∀ c ∈ ds, isVChar c = true) (hn : '\n' ∉ rest)
    (ha : 'h' ∉ aseg) (hb : 'h' ∉ bseg) (hc : 'h' ∉ cseg) :
    update_yaml_file false
      ⟨fname,
       aseg ++ (urlOf owner repo ds rest ++ (bseg ++ (urlOf owner repo ds rest ++ cseg))),
       some (urlOf owner repo ds rest)⟩
      = (true,
         aseg ++ (urlMainOf owner repo rest ++ (bseg ++ (urlMainOf owner repo rest ++ cseg))),
         [Event.writeFile fname
           (aseg ++ (urlMainOf owner repo rest ++
             (bseg ++ (urlMainOf owner repo rest ++ cseg))))]) := by
  have hhead : urlOf owner repo ds rest
      = 'h' :: (str "ttps://github.com/" ++
          (owner ++ '/' :: (repo ++ '/' :: (str "raw/" ++ 'v' :: (ds ++ '/' :: rest))))) := rfl
  have hsub : pySub (urlOf owner repo ds rest) = urlMainOf owner repo rest :=
    pySub_urlOf owner repo ds rest ho ho' hr hr' hd hd' hn
  have hne : ¬ (urlOf owner repo ds rest = pySub (urlOf owner repo ds rest)) := by
    rw [hsub]
    exact urlOf_ne_urlMain owner repo ds rest
  have hrepl := pyReplace_two (urlOf owner repo ds rest) (urlMainOf owner repo rest)
    aseg bseg cseg 'h' _ hhead ha hb hc
  unfold update_yaml_file
  simp only [if_neg hne, Bool.false_eq_true, if_false, hsub, hrepl]
  rw [if_neg (urlOf_ne_urlMain owner repo ds rest)]

/-- Witness for C10: a manifest whose annotation URL also appears once in
a comment line; both copies are rewritten in the written text. -/
theorem c10_replace_every_occurrence_witness :
    ((str "org" : List Char) ≠ [] ∧ '/' ∉ (str "org" : List Char) ∧
     (str "repo" : List Char) ≠ [] ∧ '/' ∉ (str "repo" : List Char) ∧
     (str "1.2.3" : List Char) ≠ [] ∧
     (∀ c ∈ (str "1.2.3" : List Char), isVChar c = true) ∧
     '\n' ∉ (str "f.yaml" : List Char) ∧
     'h' ∉ (str "# see " : List Char) ∧ 'h' ∉ (str "\npipeline: " : List Char) ∧
     'h' ∉ (str "\n" : List Char)) ∧
    update_yaml_file false
      ⟨str "x-sc.yaml",
       str "# see " ++ (urlOf (str "org") (str "repo") (str "1.2.3") (str "f.yaml") ++
         (str "\npipeline: " ++
           (urlOf (str "org") (str "repo") (str "1.2.3") (str "f.yaml") ++ str "\n"))),
       some (urlOf (str "org") (str "repo") (str "1.2.3") (str "f.yaml"))⟩
      = (true,
         str "# see " ++ (urlMainOf (str "org") (str "repo") (str "f.yaml") ++
           (str "\npipeline: " ++
             (urlMainOf (str "org") (str "repo") (str "f.yaml") ++ str "\n"))),
         [Event.writeFile (str "x-sc.yaml")
           (str "# see " ++ (urlMainOf (str "org") (str "repo") (str "f.yaml") ++
             (str "\npipeline: " ++
               (urlMainOf (str "org") (str "repo") (str "f.yaml") ++ str "\n"))))]) :=
  ⟨⟨by decide, by decide, by decide, by decide, by decide, by decide, by decide,
    by decide, by decide, by decide⟩,
   c10_replace_every_occurrence (str "# see ") (str "\npipeline: ") (str "\n")
     (str "x-sc.yaml") (str "org") (str "repo") (str "1.2.3") (str "f.yaml")
     (by decide) (by decide) (by decide) (by decide) (by decide) (by decide)
     (by decide) (by decide) (by decide) (by decide)⟩

theorem noSc_ne_branchSkip (branch : List Char) :
    str "No -sc files found in .tekton directory" ≠ branchSkipReason branch := by
  intro h
  rw [show branchSkipReason branch
        = 'B' :: (str "ranch " ++ quoteChar :: (branch ++ quoteChar ::
            str " not found on remote")) from rfl,
    show (str "No -sc files found in .tekton directory" : List Char)
        = 'N' :: str "o -sc files found in .tekton directory" from rfl] at h
  simp only [List.cons.injEq] at h
  exact absurd h.1 (by decide)

theorem alreadyMain_ne_branchSkip (branch : List Char) :
    alreadyMainReason ≠ branchSkipReason branch := by
  intro h
  rw [show branchSkipReason branch
        = 'B' :: (str "ranch " ++ quoteChar :: (branch ++ quoteChar ::
            str " not found on remote")) from rfl,
    show alreadyMainReason
        = 'S' :: (str "C files already use " ++ quoteChar :: (str "main" ++ quoteChar ::
            str " branch")) from rfl] at h
  simp only [List.cons.injEq] at h
  exact absurd h.1 (by decide)

/-- Claim C6: when the target branch does not exist on the upstream remote,
reconciliation fails with the branch-not-found reason recorded in the
no-changes log, and the only git commands run are the fetch and the two
`rev-parse` checks: no checkout, no manifest patching, no commit, no
push. -/
theorem c6_branch_missing (g : GitOracle) (branch fname : List Char)
    (files : List YamlFile) (dry : Bool)
    (hrem : g.revParseUpstream.1 = false) :
    checkout_and_pull g branch
      = (false, [GitCall.fetch (str "upstream"), GitCall.revParse branch,
                 GitCall.revParse (str "upstream/" ++ branch)]) ∧
    process_repository dry branch ⟨fname, g, files⟩
      = ⟨none, some (fname, branchSkipReason branch),
         [Event.git (GitCall.fetch (str "upstream")),
          Event.git (GitCall.revParse branch),
          Event.git (GitCall.revParse (str "upstream/" ++ branch))]⟩ := by
  have h1 : checkout_and_pull g branch
      = (false, [GitCall.fetch (str "upstream"), GitCall.revParse branch,
                 GitCall.revParse (str "upstream/" ++ branch)]) := by
    unfold checkout_and_pull
    simp [hrem]
  refine ⟨h1, ?_⟩
  unfold process_repository
  simp [h1]

/-- Witness for C6. -/
theorem c6_branch_missing_witness :
    ((⟨(true, []), (false, []), (false, []), (true, []), (true, []), (true, []),
       (true, []), (true, []), (true, []), (true, []), (true, []), (true, [])⟩ :
        GitOracle).revParseUpstream.1 = false) ∧
    (checkout_and_pull
        ⟨(true, []), (false, []), (false, []), (true, []), (true, []), (true, []),
         (true, []), (true, []), (true, []), (true, []), (true, []), (true, [])⟩
        (str "security-compliance")
      = (false, [GitCall.fetch (str "upstream"),
                 GitCall.revParse (str "security-compliance"),
                 GitCall.revParse (str "upstream/" ++ str "security-compliance")]) ∧
     process_repository false (str "security-compliance")
        ⟨str "svc-repo",
         ⟨(true, []), (false, []), (false, []), (true, []), (true, []), (true, []),
          (true, []), (true, []), (true, []), (true, []), (true, []), (true, [])⟩, []⟩
      = ⟨none, some (str "svc-repo", branchSkipReason (str "security-compliance")),
         [Event.git (GitCall.fetch (str "upstream")),
          Event.git (GitCall.revParse (str "security-compliance")),
          Event.git (GitCall.revParse (str "upstream/" ++ str "security-compliance"))]⟩) :=
  ⟨rfl,
   c6_branch_missing
     ⟨(true, []), (false, []), (false, []), (true, []), (true, []), (true, []),
      (true, []), (true, []), (true, []), (true, []), (true, []), (true, [])⟩
     (str "security-compliance") (str "svc-repo") [] false rfl⟩

/-- Claim C3: with a pre-existing local branch (and the remote branch
present, checkout succeeding and `git status` readable), a status output
reporting divergence or a local branch ahead triggers a hard reset to
`upstream/<branch>` and no pull; otherwise a pull from upstream runs and
reconciliation succeeds even when the pull itself fails, after which
repository processing proceeds past branch reconciliation (it never
records the branch-skip outcome). -/
theorem c3_reconcile_divergence (g : GitOracle) (branch fname : List Char)
    (files : List YamlFile) (dry : Bool)
    (hloc : g.revParseBranch.1 = true) (hrem : g.revParseUpstream.1 = true)
    (hco : g.checkout.1 = true) (hst : g.status.1 = true) :
    ((hasSub (str "have diverged") g.status.2
        || hasSub (str "Your branch is ahead of") g.status.2) = true →
       GitCall.resetHard (str "upstream/" ++ branch) ∈ (checkout_and_pull g branch).2 ∧
       (∀ rm rb, GitCall.pull rm rb ∉ (checkout_and_pull g branch).2) ∧
       (g.reset.1 = true → (checkout_and_pull g branch).1 = true)) ∧
    ((hasSub (str "have diverged") g.status.2
        || hasSub (str "Your branch is ahead of") g.status.2) = false →
       GitCall.pull (str "upstream") branch ∈ (checkout_and_pull g branch).2 ∧
       (∀ ref, GitCall.resetHard ref ∉ (checkout_and_pull g branch).2) ∧
       (checkout_and_pull g branch).1 = true) ∧
    ((checkout_and_pull g branch).1 = true →
       (process_repository dry branch ⟨fname, g, files⟩).noChange
         ≠ some (fname, branchSkipReason branch)) := by
  refine ⟨?_, ?_, ?_⟩
  · intro hdiv
    unfold checkout_and_pull
    simp only [hrem, hloc, hco, hst, Bool.true_and, hdiv, Bool.not_true,
      Bool.false_eq_true, if_false, if_true]
    cases hres : g.reset.1 <;>
      simp [List.mem_append, List.mem_cons]
  · intro hdiv
    unfold checkout_and_pull
    simp only [hrem, hloc, hco, hst, Bool.true_and, hdiv, Bool.not_true,
      Bool.false_eq_true, if_false, if_true]
    simp [List.mem_append, List.mem_cons]
  · intro hok
    unfold process_repository
    simp only [hok, Bool.not_true, Bool.false_eq_true, if_false]
    by_cases hempty : files.isEmpty
    · simp only [hempty, if_true]
      intro h
      simp only [Option.some.injEq, Prod.mk.injEq] at h
      exact noSc_ne_branchSkip branch h.2
    · simp only [hempty, Bool.false_eq_true, if_false]
      by_cases hch : (files.filterMap (fun f =>
          if (update_yaml_file dry f).1 then some f.name else none)).isEmpty
      · simp only [hch, if_true]
        intro h
        simp only [Option.some.injEq, Prod.mk.injEq] at h
        exact alreadyMain_ne_branchSkip branch h.2
      · simp only [hch, Bool.false_eq_true, if_false]
        intro h
        cases h

/-- Witness for C3 at a concrete oracle whose status reports the branch
ahead of upstream. -/
theorem c3_reconcile_divergence_witness :
    (gAhead.revParseBranch.1 = true ∧ gAhead.revParseUpstream.1 = true ∧
     gAhead.checkout.1 = true ∧ gAhead.status.1 = true) ∧
    (((hasSub (str "have diverged") gAhead.status.2
        || hasSub (str "Your branch is ahead of") gAhead.status.2) = true →
       GitCall.resetHard (str "upstream/" ++ str "security-compliance")
         ∈ (checkout_and_pull gAhead (str "security-compliance")).2 ∧
       (∀ rm rb, GitCall.pull rm rb
         ∉ (checkout_and_pull gAhead (str "security-compliance")).2) ∧
       (gAhead.reset.1 = true →
         (checkout_and_pull gAhead (str "security-compliance")).1 = true)) ∧
     ((hasSub (str "have diverged") gAhead.status.2
        || hasSub (str "Your branch is ahead of") gAhead.status.2) = false →
       GitCall.pull (str "upstream") (str "security-compliance")
         ∈ (checkout_and_pull gAhead (str "security-compliance")).2 ∧
       (∀ ref, GitCall.resetHard ref
         ∉ (checkout_and_pull gAhead (str "security-compliance")).2) ∧
       (checkout_and_pull gAhead (str "security-compliance")).1 = true) ∧
     ((checkout_and_pull gAhead (str "security-compliance")).1 = true →
       (process_repository false (str "security-compliance")
           ⟨str "svc-repo", gAhead, []⟩).noChange
         ≠ some (str "svc-repo", branchSkipReason (str "security-compliance")))) :=
  ⟨⟨rfl, rfl, rfl, rfl⟩,
   c3_reconcile_divergence gAhead (str "security-compliance") (str "svc-repo") [] false
     rfl rfl rfl rfl⟩

theorem checkout_calls_clean (g : GitOracle) (branch : List Char) :
    ∀ c ∈ (checkout_and_pull g branch).2, dryForbidden (Event.git c) = false := by
  intro c hc
  unfold checkout_and_pull at hc
  cases h1 : g.revParseUpstream.1 <;> simp only [h1] at hc
  · simp at hc
    rcases hc with rfl | rfl | rfl <;> rfl
  · cases h2 : g.revParseBranch.1 <;> simp only [h2] at hc
    · cases h3 : g.checkoutB.1 <;> simp only [h3] at hc <;> simp at hc <;>
        rcases hc with rfl | rfl | rfl | rfl <;> rfl
    · cases h3 : g.checkout.1 <;> simp only [h3] at hc
      · simp at hc
        rcases hc with rfl | rfl | rfl | rfl <;> rfl
      · cases h4 : ((g.status.1 && hasSub (str "have diverged") g.status.2)
            || hasSub (str "Your branch is ahead of") g.status.2) <;>
          simp only [h4] at hc
        · simp at hc
          rcases hc with rfl | rfl | rfl | rfl | rfl | rfl <;> rfl
        · cases h5 : g.reset.1 <;> simp only [h5] at hc <;> simp at hc <;>
            rcases hc with rfl | rfl | rfl | rfl | rfl | rfl <;> rfl

theorem update_changed_dry_eq (f : YamlFile) :
    (update_yaml_file true f).1 = (update_yaml_file false f).1 := by
  unfold update_yaml_file
  cases h : f.pipelineUrl
  · simp [h]
  · simp only [h]
    split
    · rfl
    · simp

theorem update_dry_events (f : YamlFile) : (update_yaml_file true f).2.2 = [] := by
  unfold update_yaml_file
  cases h : f.pipelineUrl
  · simp [h]
  · simp only [h]
    split
    · rfl
    · simp

theorem commit_and_push_dry (g : GitOracle) (branch : List Char) (fc : List (List Char)) :
    (commit_and_push true g branch fc).2.1 = [] ∧
    (commit_and_push true g branch fc).2.2 = none := by
  unfold commit_and_push
  cases h : fc.isEmpty <;> simp [h]

theorem filterMap_changed_dry (l : List YamlFile) :
    l.filterMap (fun f => if (update_yaml_file true f).1 then some f.name else none)
      = l.filterMap (fun f => if (update_yaml_file false f).1 then some f.name else none) := by
  induction l with
  | nil => rfl
  | cons f fs ih => simp [List.filterMap_cons, update_changed_dry_eq f, ih]

theorem process_dry_events (branch : List Char) (r : RepoEnv) :
    ∀ e ∈ (process_repository true branch r).events, dryForbidden e = false := by
  have hupd : ((r.scFiles.map (fun f => (update_yaml_file true f).2.2)).flatten
      : List Event) = [] := by
    simp [List.flatten_eq_nil_iff, update_dry_events]
  intro e he
  unfold process_repository at he
  cases hok : (checkout_and_pull r.git branch).1 <;> simp only [hok] at he
  · simp at he
    obtain ⟨c, hc, rfl⟩ := he
    exact checkout_calls_clean r.git branch c hc
  · cases hempty : r.scFiles.isEmpty <;> simp only [hempty] at he
    · cases hch : (r.scFiles.filterMap (fun f =>
          if (update_yaml_file true f).1 then some f.name else none)).isEmpty <;>
        simp only [hch] at he
      · simp only [hupd, (commit_and_push_dry r.git branch _).1, List.map_nil,
          List.append_nil, Bool.false_eq_true, if_false] at he
        simp at he
        obtain ⟨c, hc, rfl⟩ := he
        exact checkout_calls_clean r.git branch c hc
      · simp only [hupd, List.append_nil, Bool.false_eq_true, if_false, if_true] at he
        simp at he
        obtain ⟨c, hc, rfl⟩ := he
        exact checkout_calls_clean r.git branch c hc
    · simp at he
      obtain ⟨c, hc, rfl⟩ := he
      exact checkout_calls_clean r.git branch c hc

theorem process_dry_noChange (branch : List Char) (r : RepoEnv) :
    (process_repository true branch r).noChange
      = (process_repository false branch r).noChange := by
  unfold process_repository
  cases hok : (checkout_and_pull r.git branch).1
  · simp [hok]
  · cases hempty : r.scFiles.isEmpty
    · simp only [hok, hempty]
      rw [filterMap_changed_dry]
      cases hch : (r.scFiles.filterMap (fun f =>
          if (update_yaml_file false f).1 then some f.name else none)).isEmpty <;>
        simp [hch]
    · simp [hok, hempty]

/-- Claim C4, counterexample: a dry run still executes mutating git
subcommands — processing this repository runs `git checkout` and
`git pull` even with the dry-run flag set. -/
theorem c4_dry_counterexample :
    Event.git (GitCall.checkout (str "security-compliance"))
      ∈ (runUpdater true (str "security-compliance") [repoDry]).events ∧
    Event.git (GitCall.pull (str "upstream") (str "security-compliance"))
      ∈ (runUpdater true (str "security-compliance") [repoDry]).events ∧
    mutatingGit (GitCall.checkout (str "security-compliance")) = true ∧
    mutatingGit (GitCall.pull (str "upstream") (str "security-compliance")) = true := by
  refine ⟨?_, ?_, rfl, rfl⟩ <;> decide

/-- Claim C4 (amended): in dry-run mode a full run performs no file write
and none of the mutating `add`, `commit` or `push` git subcommands — the
branch-reconciliation commands (checkout, reset, pull) are still executed,
as the counterexample records — and its no-changes audit log is identical
to that of a real run in the same environment (commit-log entries are
produced only by real runs). -/
theorem c4_dry_run_behavior (branch : List Char) (repos : List RepoEnv) :
    ((runUpdater true branch repos).events.all (fun e => !dryForbidden e)) = true ∧
    (runUpdater true branch repos).noChangesLog
      = (runUpdater false branch repos).noChangesLog := by
  induction repos with
  | nil => exact ⟨rfl, rfl⟩
  | cons r rs ih =>
    constructor
    · simp only [runUpdater, List.all_append, Bool.and_eq_true]
      refine ⟨?_, ih.1⟩
      simp only [List.all_eq_true]
      intro e he
      simp [process_dry_events branch r e he]
    · simp only [runUpdater]
      rw [process_dry_noChange branch r, ih.2]

/-- Claim C5, counterexample: a failed second page request does not abort
the fetch for the repository: the page-1 tags come back as an ordinary
nonempty result, and the caller then classifies the service as updated
instead of recording an error reason for it. -/
theorem c5_partial_page_counterexample :
    get_all_tags fetchPartial 5 = some [str "sc-20240101-abcdef1"] ∧
    search_by_date_range [(str "svc", str "quay.io/ns/repo")] none none none
        (fun _ _ => [str "sc-20240101-abcdef1"])
      = ⟨[(str "svc", [(str "sc-20240101-abcdef1", some (str "20240101"))])],
         [], [], true, 1⟩ := by
  constructor
  · rfl
  · rfl

/-- Claim C5 (amended): pagination stops when the server signals no more
pages, returns an empty page, or a page request fails.  A failed request
ends the loop with the tags accumulated so far: a first-page failure
yields the empty list, which the caller records as an error for that
service, but a failure on a later page yields the partial tag list of the
earlier pages, which the caller processes as an ordinary result. -/
theorem c5_page_failure_behavior :
    (∀ (fetch : Nat → Option PageResp) (f page : Nat) (acc : List (List Char)),
        fetch page = none → 1 ≤ f → get_all_tags_aux fetch f page acc = some acc) ∧
    (∀ (fetch : Nat → Option PageResp) (f : Nat),
        fetch 1 = none → 1 ≤ f → get_all_tags fetch f = some []) ∧
    (∀ (fetch : Nat → Option PageResp) (f page : Nat) (acc : List (List Char))
        (resp : PageResp) (tags : List (List Char)),
        fetch page = some resp → resp.tagsField = some tags → tags ≠ [] →
        resp.hasAdditional = true → fetch (page + 1) = none → 2 ≤ f →
        get_all_tags_aux fetch f page acc = some (acc ++ tags)) ∧
    (∀ (svc url ns rep : List Char)
        (oracle : List Char → List Char → List (List Char))
        (sd ed : Option (List Char)),
        parse_quay_repo url = Except.ok (ns, rep) → oracle ns rep = [] →
        search_by_date_range [(svc, url)] sd ed none oracle
          = ⟨[], [], [(svc, str "No tags found or error accessing repository")],
             false, 1⟩) := by
  have part1 : ∀ (fetch : Nat → Option PageResp) (f page : Nat) (acc : List (List Char)),
      fetch page = none → 1 ≤ f → get_all_tags_aux fetch f page acc = some acc := by
    intro fetch f page acc h hf
    match f, hf with
    | f + 1, _ => simp [get_all_tags_aux, h]
  refine ⟨part1, ?_, ?_, ?_⟩
  · intro fetch f h hf
    exact part1 fetch f 1 [] h hf
  · intro fetch f page acc resp tags hresp htags hne hadd hnext hf
    match f, hf with
    | f + 1, _ =>
      have hne' : tags.isEmpty = false := by
        cases tags
        · exact absurd rfl hne
        · rfl
      have hf' : 1 ≤ f := by omega
      simp only [get_all_tags_aux, hresp, htags, hne', hadd, Bool.not_true,
        Bool.false_eq_true, if_false]
      exact part1 fetch f (page + 1) (acc ++ tags) hnext hf'
  · intro svc url ns rep oracle sd ed hp htags
    simp [search_by_date_range, processedSvc, hp, htags]

/-- Witness for C5 at an oracle that fails on every page. -/
theorem c5_page_failure_behavior_witness :
    (((fun _ => none) : Nat → Option PageResp) 1 = none ∧ 1 ≤ 1) ∧
    get_all_tags (fun _ => none) 1 = some [] :=
  ⟨⟨rfl, by decide⟩,
   c5_page_failure_behavior.2.1 (fun _ => none) 1 rfl (by decide)⟩

theorem search_buckets_aux (sd ed : Option (List Char))
    (services : Option (List (List Char)))
    (oracle : List Char → List Char → List (List Char)) :
    ∀ repos : List (List Char × List Char),
      ((search_by_date_range repos sd ed services oracle).updated.map Prod.fst ++
        ((search_by_date_range repos sd ed services oracle).notUpdated ++
         (search_by_date_range repos sd ed services oracle).errored.map Prod.fst)).Perm
          ((repos.filter (fun p => processedSvc services p.1)).map Prod.fst) ∧
      (∀ svc m, (svc, m) ∈ (search_by_date_range repos sd ed services oracle).updated →
          m ≠ [] ∧ ∃ url ns rep, (svc, url) ∈ repos ∧
            parse_quay_repo url = Except.ok (ns, rep) ∧ oracle ns rep ≠ [] ∧
            m = collectMatches sd ed (oracle ns rep)) ∧
      (∀ svc, svc ∈ (search_by_date_range repos sd ed services oracle).notUpdated →
          ∃ url ns rep, (svc, url) ∈ repos ∧
            parse_quay_repo url = Except.ok (ns, rep) ∧ oracle ns rep ≠ [] ∧
            collectMatches sd ed (oracle ns rep) = []) ∧
      (∀ svc url, (svc, url) ∈ repos → processedSvc services svc = true →
          (∀ e, parse_quay_repo url = Except.error e →
              (svc, str "Invalid repo format: " ++ e)
                ∈ (search_by_date_range repos sd ed services oracle).errored) ∧
          (∀ ns rep, parse_quay_repo url = Except.ok (ns, rep) →
              (oracle ns rep = [] →
                (svc, str "No tags found or error accessing repository")
                  ∈ (search_by_date_range repos sd ed services oracle).errored) ∧
              (oracle ns rep ≠ [] → collectMatches sd ed (oracle ns rep) = [] →
                svc ∈ (search_by_date_range repos sd ed services oracle).notUpdated) ∧
              (oracle ns rep ≠ [] → collectMatches sd ed (oracle ns rep) ≠ [] →
                (svc, collectMatches sd ed (oracle ns rep))
                  ∈ (search_by_date_range repos sd ed services oracle).updated))) := by
  intro repos
  induction repos with
  | nil =>
    refine ⟨by simp [search_by_date_range], ?_, ?_, ?_⟩ <;>
      simp [search_by_date_range]
  | cons hd rest ih =>
    obtain ⟨svc, url⟩ := hd
    obtain ⟨ihp, ihu, ihn, ihc⟩ := ih
    cases hproc : processedSvc services svc with
    | false =>
      simp only [search_by_date_range, hproc, Bool.not_false, if_true,
        List.filter_cons, Bool.false_eq_true, if_false]
      refine ⟨ihp, ?_, ?_, ?_⟩
      · intro s m hm
        obtain ⟨hne, u2, n2, r2, hmem, h1, h2, h3⟩ := ihu s m hm
        exact ⟨hne, u2, n2, r2, List.mem_cons_of_mem _ hmem, h1, h2, h3⟩
      · intro s hm
        obtain ⟨u2, n2, r2, hmem, h1, h2, h3⟩ := ihn s hm
        exact ⟨u2, n2, r2, List.mem_cons_of_mem _ hmem, h1, h2, h3⟩
      · intro s u hmem hproc2
        rcases List.mem_cons.mp hmem with heq | hmem2
        · have h1 : s = svc := congrArg Prod.fst heq
          have h2 : u = url := congrArg Prod.snd heq
          subst h1
          subst h2
          rw [hproc] at hproc2
          simp at hproc2
        · exact ihc s u hmem2 hproc2
    | true =>
      cases hp : parse_quay_repo url with
      | error e =>
        simp only [search_by_date_range, hproc, Bool.not_true, Bool.false_eq_true,
          if_false, hp, List.filter_cons, if_true, List.map_cons]
        refine ⟨?_, ?_, ?_, ?_⟩
        · have hmid := @List.perm_middle (List Char) svc
            ((search_by_date_range rest sd ed services oracle).updated.map Prod.fst ++
              (search_by_date_range rest sd ed services oracle).notUpdated)
            ((search_by_date_range rest sd ed services oracle).errored.map Prod.fst)
          refine List.Perm.trans ?_ (ihp.cons svc)
          simpa [List.append_assoc] using hmid
        · intro s m hm
          obtain ⟨hne, u2, n2, r2, hmem, h1, h2, h3⟩ := ihu s m hm
          exact ⟨hne, u2, n2, r2, List.mem_cons_of_mem _ hmem, h1, h2, h3⟩
        · intro s hm
          obtain ⟨u2, n2, r2, hmem, h1, h2, h3⟩ := ihn s hm
          exact ⟨u2, n2, r2, List.mem_cons_of_mem _ hmem, h1, h2, h3⟩
        · intro s u hmem hproc2
          rcases List.mem_cons.mp hmem with heq | hmem2
          · have h1 : s = svc := congrArg Prod.fst heq
            have h2 : u = url := congrArg Prod.snd heq
            subst h1
            subst h2
            refine ⟨?_, ?_⟩
            · intro e2 he
              have h3 := hp.symm.trans he
              injection h3 with h4
              subst h4
              exact List.mem_cons_self _ _
            · intro ns2 rep2 hok
              rw [hp] at hok
              exact Except.noConfusion hok
          · obtain ⟨ih1, ih2⟩ := ihc s u hmem2 hproc2
            refine ⟨fun e2 he => List.mem_cons_of_mem _ (ih1 e2 he), ?_⟩
            intro ns2 rep2 hok
            obtain ⟨j1, j2, j3⟩ := ih2 ns2 rep2 hok
            exact ⟨fun h => List.mem_cons_of_mem _ (j1 h), j2, j3⟩
      | ok pr =>
        obtain ⟨ns, rep⟩ := pr
        cases htags : (oracle ns rep).isEmpty with
        | true =>
          have hoemp : oracle ns rep = [] := by
            cases hc : oracle ns rep
            · rfl
            · rw [hc] at htags
              simp at htags
          simp only [search_by_date_range, hproc, Bool.not_true, Bool.false_eq_true,
            if_false, hp, htags, if_true, List.filter_cons, List.map_cons]
          refine ⟨?_, ?_, ?_, ?_⟩
          · have hmid := @List.perm_middle (List Char) svc
              ((search_by_date_range rest sd ed services oracle).updated.map Prod.fst ++
                (search_by_date_range rest sd ed services oracle).notUpdated)
              ((search_by_date_range rest sd ed services oracle).errored.map Prod.fst)
            refine List.Perm.trans ?_ (ihp.cons svc)
            simpa [List.append_assoc] using hmid
          · intro s m hm
            obtain ⟨hne, u2, n2, r2, hmem, h1, h2, h3⟩ := ihu s m hm
            exact ⟨hne, u2, n2, r2, List.mem_cons_of_mem _ hmem, h1, h2, h3⟩
          · intro s hm
            obtain ⟨u2, n2, r2, hmem, h1, h2, h3⟩ := ihn s hm
            exact ⟨u2, n2, r2, List.mem_cons_of_mem _ hmem, h1, h2, h3⟩
          · intro s u hmem hproc2
            rcases List.mem_cons.mp hmem with heq | hmem2
            · have h1 : s = svc := congrArg Prod.fst heq
              have h2 : u = url := congrArg Prod.snd heq
              subst h1
              subst h2
              refine ⟨?_, ?_⟩
              · intro e2 he
                rw [hp] at he
                exact Except.noConfusion he
              · intro ns2 rep2 hok
                have h3 := hp.symm.trans hok
                injection h3 with h4
                have h5 : ns = ns2 := congrArg Prod.fst h4
                have h6 : rep = rep2 := congrArg Prod.snd h4
                subst h5
                subst h6
                exact ⟨fun _ => List.mem_cons_self _ _,
                  fun hne _ => absurd hoemp hne,
                  fun hne _ => absurd hoemp hne⟩
            · obtain ⟨ih1, ih2⟩ := ihc s u hmem2 hproc2
              refine ⟨fun e2 he => List.mem_cons_of_mem _ (ih1 e2 he), ?_⟩
              intro ns2 rep2 hok
              obtain ⟨j1, j2, j3⟩ := ih2 ns2 rep2 hok
              exact ⟨fun h => List.mem_cons_of_mem _ (j1 h), j2, j3⟩
        | false =>
          have horacle : oracle ns rep ≠ [] := by
            intro h
            simp [h] at htags
          cases hm : (collectMatches sd ed (oracle ns rep)).isEmpty with
          | true =>
            have hcm : collectMatches sd ed (oracle ns rep) = [] := by
              cases hc : collectMatches sd ed (oracle ns rep)
              · rfl
              · rw [hc] at hm
                cases hm
            simp only [search_by_date_range, hproc, Bool.not_true, Bool.false_eq_true,
              if_false, hp, htags, hm, if_true, List.filter_cons, List.map_cons]
            refine ⟨?_, ?_, ?_, ?_⟩
            · have hmid := @List.perm_middle (List Char) svc
                ((search_by_date_range rest sd ed services oracle).updated.map Prod.fst)
                ((search_by_date_range rest sd ed services oracle).notUpdated ++
                  (search_by_date_range rest sd ed services oracle).errored.map Prod.fst)
              exact List.Perm.trans hmid (ihp.cons svc)
            · intro s m hmem
              obtain ⟨hne, u2, n2, r2, hmem2, h1, h2, h3⟩ := ihu s m hmem
              exact ⟨hne, u2, n2, r2, List.mem_cons_of_mem _ hmem2, h1, h2, h3⟩
            · intro s hmem
              rcases List.mem_cons.mp hmem with rfl | hmem2
              · exact ⟨url, ns, rep, List.mem_cons_self _ _, hp, horacle, hcm⟩
              · obtain ⟨u2, n2, r2, hmem3, h1, h2, h3⟩ := ihn s hmem2
                exact ⟨u2, n2, r2, List.mem_cons_of_mem _ hmem3, h1, h2, h3⟩
            · intro s u hmem hproc2
              rcases List.mem_cons.mp hmem with heq | hmem2
              · have h1 : s = svc := congrArg Prod.fst heq
                have h2 : u = url := congrArg Prod.snd heq
                subst h1
                subst h2
                refine ⟨?_, ?_⟩
                · intro e2 he
                  rw [hp] at he
                  exact Except.noConfusion he
                · intro ns2 rep2 hok
                  have h3 := hp.symm.trans hok
                  injection h3 with h4
                  have h5 : ns = ns2 := congrArg Prod.fst h4
                  have h6 : rep = rep2 := congrArg Prod.snd h4
                  subst h5
                  subst h6
                  exact ⟨fun h => absurd h horacle,
                    fun _ _ => List.mem_cons_self _ _,
                    fun _ hne => absurd hcm hne⟩
              · obtain ⟨ih1, ih2⟩ := ihc s u hmem2 hproc2
                refine ⟨ih1, ?_⟩
                intro ns2 rep2 hok
                obtain ⟨j1, j2, j3⟩ := ih2 ns2 rep2 hok
                exact ⟨j1, fun h h2x => List.mem_cons_of_mem _ (j2 h h2x), j3⟩
          | false =>
            have hcm : collectMatches sd ed (oracle ns rep) ≠ [] := by
              intro h
              simp [h] at hm
            simp only [search_by_date_range, hproc, Bool.not_true, Bool.false_eq_true,
              if_false, hp, htags, hm, List.filter_cons, if_true, List.map_cons,
              List.cons_append]
            refine ⟨?_, ?_, ?_, ?_⟩
            · exact ihp.cons svc
            · intro s m hmem
              rcases List.mem_cons.mp hmem with heq | hmem2
              · obtain ⟨rfl, rfl⟩ := Prod.mk.injEq .. ▸ And.intro
                  (congrArg Prod.fst heq) (congrArg Prod.snd heq)
                exact ⟨hcm, url, ns, rep, List.mem_cons_self _ _, hp, horacle, rfl⟩
              · obtain ⟨hne, u2, n2, r2, hmem3, h1, h2, h3⟩ := ihu s m hmem2
                exact ⟨hne, u2, n2, r2, List.mem_cons_of_mem _ hmem3, h1, h2, h3⟩
            · intro s hmem
              obtain ⟨u2, n2, r2, hmem3, h1, h2, h3⟩ := ihn s hmem
              exact ⟨u2, n2, r2, List.mem_cons_of_mem _ hmem3, h1, h2, h3⟩
            · intro s u hmem hproc2
              rcases List.mem_cons.mp hmem with heq | hmem2
              · have h1 : s = svc := congrArg Prod.fst heq
                have h2 : u = url := congrArg Prod.snd heq
                subst h1
                subst h2
                refine ⟨?_, ?_⟩
                · intro e2 he
                  rw [hp] at he
                  exact Except.noConfusion he
                · intro ns2 rep2 hok
                  have h3 := hp.symm.trans hok
                  injection h3 with h4
                  have h5 : ns = ns2 := congrArg Prod.fst h4
                  have h6 : rep = rep2 := congrArg Prod.snd h4
                  subst h5
                  subst h6
                  exact ⟨fun h => absurd h horacle,
                    fun _ h2x => absurd h2x hcm,
                    fun _ _ => List.mem_cons_self _ _⟩
              · obtain ⟨ih1, ih2⟩ := ihc s u hmem2 hproc2
                refine ⟨ih1, ?_⟩
                intro ns2 rep2 hok
                obtain ⟨j1, j2, j3⟩ := ih2 ns2 rep2 hok
                exact ⟨j1, j2, fun h h2x => List.mem_cons_of_mem _ (j3 h h2x)⟩

/-- Claim C8: every processed service lands in exactly one of the three
buckets — their name lists together are a permutation of the processed
services and hold no duplicate — with `updated` holding exactly the
services whose match list is nonempty and `notUpdated` exactly those
whose tags existed but matched nothing: membership in a bucket implies
the classifying condition, and conversely every processed service is
placed in the bucket its condition selects (`errored` for a parse
failure or an empty tag list, `notUpdated` for tags with no match,
`updated` with its match list otherwise). -/
theorem c8_search_partition (repos : List (List Char × List Char))
    (sd ed : Option (List Char)) (services : Option (List (List Char)))
    (oracle : List Char → List Char → List (List Char))
    (hnd : (repos.map Prod.fst).Nodup) :
    ((search_by_date_range repos sd ed services oracle).updated.map Prod.fst ++
     (search_by_date_range repos sd ed services oracle).notUpdated ++
     (search_by_date_range repos sd ed services oracle).errored.map Prod.fst).Perm
        ((repos.filter (fun p => processedSvc services p.1)).map Prod.fst) ∧
    ((search_by_date_range repos sd ed services oracle).updated.map Prod.fst ++
     (search_by_date_range repos sd ed services oracle).notUpdated ++
     (search_by_date_range repos sd ed services oracle).errored.map Prod.fst).Nodup ∧
    (∀ svc m, (svc, m) ∈ (search_by_date_range repos sd ed services oracle).updated →
        m ≠ [] ∧ ∃ url ns rep, (svc, url) ∈ repos ∧
          parse_quay_repo url = Except.ok (ns, rep) ∧ oracle ns rep ≠ [] ∧
          m = collectMatches sd ed (oracle ns rep)) ∧
    (∀ svc, svc ∈ (search_by_date_range repos sd ed services oracle).notUpdated →
        ∃ url ns rep, (svc, url) ∈ repos ∧
          parse_quay_repo url = Except.ok (ns, rep) ∧ oracle ns rep ≠ [] ∧
          collectMatches sd ed (oracle ns rep) = []) ∧
    (∀ svc url, (svc, url) ∈ repos → processedSvc services svc = true →
        (∀ e, parse_quay_repo url = Except.error e →
            (svc, str "Invalid repo format: " ++ e)
              ∈ (search_by_date_range repos sd ed services oracle).errored) ∧
        (∀ ns rep, parse_quay_repo url = Except.ok (ns, rep) →
            (oracle ns rep = [] →
              (svc, str "No tags found or error accessing repository")
                ∈ (search_by_date_range repos sd ed services oracle).errored) ∧
            (oracle ns rep ≠ [] → collectMatches sd ed (oracle ns rep) = [] →
              svc ∈ (search_by_date_range repos sd ed services oracle).notUpdated) ∧
            (oracle ns rep ≠ [] → collectMatches sd ed (oracle ns rep) ≠ [] →
              (svc, collectMatches sd ed (oracle ns rep))
                ∈ (search_by_date_range repos sd ed services oracle).updated))) := by
  obtain ⟨hperm, hupd, hnot, hcomp⟩ := search_buckets_aux sd ed services oracle repos
  have hsub : ((repos.filter (fun p => processedSvc services p.1)).map Prod.fst).Sublist
      (repos.map Prod.fst) := (List.filter_sublist _).map Prod.fst
  have hnd2 := hnd.sublist hsub
  refine ⟨?_, ?_, hupd, hnot, hcomp⟩
  · simpa [List.append_assoc] using hperm
  · have h := hperm.nodup_iff.mpr hnd2
    simpa [List.append_assoc] using h

/-- Witness for C8 at a single-service mapping with one matching tag. -/
theorem c8_search_partition_witness :
    (([(str "svc", str "quay.io/ns/repo")].map Prod.fst).Nodup) ∧
    (((search_by_date_range [(str "svc", str "quay.io/ns/repo")] none none none
          (fun _ _ => [str "sc-20240101-abcdef1"])).updated.map Prod.fst ++
      (search_by_date_range [(str "svc", str "quay.io/ns/repo")] none none none
          (fun _ _ => [str "sc-20240101-abcdef1"])).notUpdated ++
      (search_by_date_range [(str "svc", str "quay.io/ns/repo")] none none none
          (fun _ _ => [str "sc-20240101-abcdef1"])).errored.map Prod.fst).Perm
        (([(str "svc", str "quay.io/ns/repo")].filter
            (fun p => processedSvc none p.1)).map Prod.fst) ∧
     ((search_by_date_range [(str "svc", str "quay.io/ns/repo")] none none none
          (fun _ _ => [str "sc-20240101-abcdef1"])).updated.map Prod.fst ++
      (search_by_date_range [(str "svc", str "quay.io/ns/repo")] none none none
          (fun _ _ => [str "sc-20240101-abcdef1"])).notUpdated ++
      (search_by_date_range [(str "svc", str "quay.io/ns/repo")] none none none
          (fun _ _ => [str "sc-20240101-abcdef1"])).errored.map Prod.fst).Nodup ∧
     (∀ svc m, (svc, m) ∈ (search_by_date_range [(str "svc", str "quay.io/ns/repo")]
          none none none (fun _ _ => [str "sc-20240101-abcdef1"])).updated →
        m ≠ [] ∧ ∃ url ns rep, (svc, url) ∈ [(str "svc", str "quay.io/ns/repo")] ∧
          parse_quay_repo url = Except.ok (ns, rep) ∧
          (fun _ _ => [str "sc-20240101-abcdef1"]) ns rep ≠ [] ∧
          m = collectMatches none none ((fun _ _ => [str "sc-20240101-abcdef1"]) ns rep)) ∧
     (∀ svc, svc ∈ (search_by_date_range [(str "svc", str "quay.io/ns/repo")]
          none none none (fun _ _ => [str "sc-20240101-abcdef1"])).notUpdated →
        ∃ url ns rep, (svc, url) ∈ [(str "svc", str "quay.io/ns/repo")] ∧
          parse_quay_repo url = Except.ok (ns, rep) ∧
          (fun _ _ => [str "sc-20240101-abcdef1"]) ns rep ≠ [] ∧
          collectMatches none none ((fun _ _ => [str "sc-20240101-abcdef1"]) ns rep) = []) ∧
     (∀ svc url, (svc, url) ∈ [(str "svc", str "quay.io/ns/repo")] →
        processedSvc none svc = true →
        (∀ e, parse_quay_repo url = Except.error e →
            (svc, str "Invalid repo format: " ++ e)
              ∈ (search_by_date_range [(str "svc", str "quay.io/ns/repo")]
                  none none none (fun _ _ => [str "sc-20240101-abcdef1"])).errored) ∧
        (∀ ns rep, parse_quay_repo url = Except.ok (ns, rep) →
            ((fun _ _ => [str "sc-20240101-abcdef1"]) ns rep = [] →
              (svc, str "No tags found or error accessing repository")
                ∈ (search_by_date_range [(str "svc", str "quay.io/ns/repo")]
                    none none none (fun _ _ => [str "sc-20240101-abcdef1"])).errored) ∧
            ((fun _ _ => [str "sc-20240101-abcdef1"]) ns rep ≠ [] →
              collectMatches none none
                  ((fun _ _ => [str "sc-20240101-abcdef1"]) ns rep) = [] →
              svc ∈ (search_by_date_range [(str "svc", str "quay.io/ns/repo")]
                  none none none (fun _ _ => [str "sc-20240101-abcdef1"])).notUpdated) ∧
            ((fun _ _ => [str "sc-20240101-abcdef1"]) ns rep ≠ [] →
              collectMatches none none
                  ((fun _ _ => [str "sc-20240101-abcdef1"]) ns rep) ≠ [] →
              (svc, collectMatches none none
                  ((fun _ _ => [str "sc-20240101-abcdef1"]) ns rep))
                ∈ (search_by_date_range [(str "svc", str "quay.io/ns/repo")]
                    none none none (fun _ _ => [str "sc-20240101-abcdef1"])).updated)))) :=
  ⟨by decide,
   c8_search_partition [(str "svc", str "quay.io/ns/repo")] none none none
     (fun _ _ => [str "sc-20240101-abcdef1"]) (by decide)⟩

/-- Claim C9, counterexample: `git_repos_dir` is a required input (its
absence ends the run with exit status 1), yet the run performs its
network activity first: the trace already holds a registry fetch when the
non-zero exit happens. -/
theorem c9_config_counterexample :
    coordinator_main envMissingDir = (1, [CoordEvent.net]) ∧
    (coordinator_main envMissingDir).1 ≠ 0 ∧
    CoordEvent.net ∈ (coordinator_main envMissingDir).2 := by
  refine ⟨by decide, by decide, by decide⟩

/-- Claim C9 (amended): a missing or unreadable configuration file, a
missing repos file and an empty repos mapping all exit 1 immediately with
no network or VCS activity; when the inputs load, the run exits 0
whenever `git_repos_dir` is configured or check-only mode is set — a
missing `git_repos_dir` is only detected after the stale check has done
its network activity, as the counterexample records. -/
theorem c9_exit_behavior (env : CoordEnv) :
    (env.config = none → coordinator_main env = (1, [])) ∧
    (∀ cfg, env.config = some cfg → env.repos = none →
        coordinator_main env = (1, [])) ∧
    (∀ cfg, env.config = some cfg → env.repos = some [] →
        coordinator_main env = (1, [])) ∧
    (∀ cfg repos, env.config = some cfg → env.repos = some repos → repos ≠ [] →
        cfg.git_repos_dir ≠ none → (coordinator_main env).1 = 0) ∧
    (∀ cfg repos, env.config = some cfg → env.repos = some repos → repos ≠ [] →
        env.argsCheckOnly = true → (coordinator_main env).1 = 0) := by
  refine ⟨?_, ?_, ?_, ?_, ?_⟩
  · intro h
    simp [coordinator_main, h]
  · intro cfg hc hr
    simp [coordinator_main, hc, hr]
  · intro cfg hc hr
    simp [coordinator_main, hc, hr]
  · intro cfg repos hc hr hne hdir
    have hrne : repos.isEmpty = false := by
      cases repos
      · exact absurd rfl hne
      · rfl
    simp only [coordinator_main, hc, hr, hrne, Bool.false_eq_true, if_false]
    cases hco : env.argsCheckOnly
    · simp only [Bool.false_eq_true, if_false]
      cases hst : (search_by_date_range repos (some env.startDateStr)
          (some env.endDateStr) (pyOrOpt env.argsServices cfg.services)
          env.oracle).notUpdated.isEmpty
      · cases hdirv : cfg.git_repos_dir
        · exact absurd hdirv hdir
        · simp [hst, hdirv]
      · simp [hst]
    · simp
  · intro cfg repos hc hr hne hco
    have hrne : repos.isEmpty = false := by
      cases repos
      · exact absurd rfl hne
      · rfl
    simp [coordinator_main, hc, hr, hrne, hco]

/-- Witness for C9: with `git_repos_dir` configured the run exits 0. -/
theorem c9_exit_behavior_witness :
    (envComplete.config = some ⟨false, none, 14, some (str "/repos"),
        str "security-compliance"⟩ ∧
     envComplete.repos = some [(str "svc", str "quay.io/ns/repo")] ∧
     ([(str "svc", str "quay.io/ns/repo")] :
        List (List Char × List Char)) ≠ [] ∧
     (some (str "/repos") : Option (List Char)) ≠ none) ∧
    (coordinator_main envComplete).1 = 0 :=
  ⟨⟨rfl, rfl, by decide, by decide⟩,
   (c9_exit_behavior envComplete).2.2.2.1
     ⟨false, none, 14, some (str "/repos"), str "security-compliance"⟩
     [(str "svc", str "quay.io/ns/repo")] rfl rfl (by decide) (by decide)⟩

end HallMonitor
